/-
  Verification of the instantagent real-time multi-persona conversation
  backend (Python, FastAPI) against its natural-language specification.

  Shallow embedding: the Python modules under src/backend/app are translated
  into executable Lean definitions.  Python dicts (insertion-ordered) are
  modelled as association lists with dict semantics; `random.choice` and
  `random.shuffle` are modelled as explicit function parameters, quantified
  over in the theorems (with validity side conditions where reachability
  demands them); wall-clock timestamps irrelevant to the claims are dropped.

  Sources embedded:
    - app/agents/agent_manager.py      (AgentManager)
    - app/agents/topic_analyzer.py     (TopicAnalyzer.analyze_topic_preference)
    - app/agents/dynamic_mentor.py     (DynamicMentor.__init__ id generation)
    - app/api/realtime_chat.py         (RealtimeChatManager audio pipeline)
    - app/services/qwen_asr_realtime.py (recognize_stream frame loop)
-/
import Mathlib

namespace InstantAgent

/-! ## Python dict model (insertion-ordered association lists)

Python 3.7+ dicts preserve insertion order.  `dictSet` models `d[k] = v`
(update in place if the key exists, else append); `dictDel` models
`del d[k]`; `dictGet` models `d.get(k)` / `k in d`. -/

def dictGet {α : Type} (k : String) (d : List (String × α)) : Option α :=
  (d.find? (fun p => p.1 = k)).map (·.2)

def dictContains {α : Type} (k : String) (d : List (String × α)) : Bool :=
  d.any (fun p => p.1 = k)

def dictSet {α : Type} (k : String) (v : α) (d : List (String × α)) :
    List (String × α) :=
  if dictContains k d then
    d.map (fun p => if p.1 = k then (k, v) else p)
  else
    d ++ [(k, v)]

def dictDel {α : Type} (k : String) (d : List (String × α)) :
    List (String × α) :=
  d.filter (fun p => ¬ p.1 = k)

def dictKeys {α : Type} (d : List (String × α)) : List String :=
  d.map (·.1)

/-! ## Data model: agents and the AgentManager state

From `agent_manager.py`.  `BaseAgent` instances matter to the claims only
through their `voice` attribute (read via `getattr(..., 'voice', 'Cherry')`);
the `registered_at` wall-clock timestamp of a config is dropped. -/

structure Agent where
  voice : String
deriving DecidableEq, Repr

structure AgentConfig where
  agentId : String
  name : String
  description : String
  priority : Nat
  enabled : Bool
  voice : String
  isDynamic : Bool
  topic : String
  sessionId : String
deriving DecidableEq, Repr

/-- The mutable state of `AgentManager` (`__init__`, lines 31-39):
`agents`, `agent_configs`, `dynamic_mentors` (session id → owned dynamic
mentor ids) and `session_topics`. `conversation_sessions` is not needed by
any claim and is omitted. -/
structure AgentManager where
  agents : List (String × Agent)
  agentConfigs : List (String × AgentConfig)
  dynamicMentors : List (String × List String)
  sessionTopics : List (String × String)
deriving DecidableEq, Repr

/-- Input configuration dict passed to `register_agent`. -/
structure RegisterConfig where
  name : String
  description : String
  priority : Nat
  enabled : Bool
  isDynamic : Bool
  topic : String
  sessionId : String
deriving Repr

/-- `AgentManager.register_agent` (lines 87-109). -/
def registerAgent (m : AgentManager) (agentId : String) (inst : Agent)
    (cfg : RegisterConfig) : AgentManager :=
  { m with
    agents := dictSet agentId inst m.agents
    agentConfigs := dictSet agentId
      { agentId := agentId
        name := cfg.name
        description := cfg.description
        priority := cfg.priority
        enabled := cfg.enabled
        voice := inst.voice
        isDynamic := cfg.isDynamic
        topic := cfg.topic
        sessionId := cfg.sessionId } m.agentConfigs }

/-- `AgentManager._initialize_agents` (lines 41-85): the four static
personas with the voices set in their class constructors
(buffett_agent.py / soros_agent.py / munger_agent.py / krugman_agent.py). -/
def initialAgentManager : AgentManager :=
  let m0 : AgentManager := ⟨[], [], [], []⟩
  let m1 := registerAgent m0 "buffett" ⟨"Ethan"⟩
    ⟨"沃伦·巴菲特", "价值投资专家", 1, true, false, "", ""⟩
  let m2 := registerAgent m1 "soros" ⟨"Chelsie"⟩
    ⟨"乔治·索罗斯", "宏观投资专家", 1, true, false, "", ""⟩
  let m3 := registerAgent m2 "munger" ⟨"Cherry"⟩
    ⟨"查理·芒格", "多元思维模型专家", 1, true, false, "", ""⟩
  registerAgent m3 "krugman" ⟨"Serena"⟩
    ⟨"保罗·克鲁格曼", "宏观经济分析专家", 1, true, false, "", ""⟩

/-- `AgentManager.get_enabled_agents` (lines 118-124), as the ordered list
of enabled agent ids: dict-comprehension over `self.agents` keeping ids
whose config has `enabled` (default `True` when the config is missing). -/
def enabledAgentIds (m : AgentManager) : List String :=
  (m.agents.map (·.1)).filter (fun aid =>
    match dictGet aid m.agentConfigs with
    | some c => c.enabled
    | none => true)

/-! ## Topic analyzer

From `topic_analyzer.py`, `analyze_topic_preference` (lines 143-218).
The keyword-regex scan over the utterance is a deterministic function of
the utterance; the decision logic downstream of the per-agent scores is
embedded here with the scores (`agent_scores`, keyword-match counts in
analyzer iteration order buffett, soros, munger) as input.  Scores are
naturals (`len(matched_keywords) * 1.0` with context score 0); the float
score share is modelled as an exact rational, faithful for the small
integer ratios the scorer produces. -/

structure AnalysisResult where
  preferredAgent : Option String
  confidence : ℚ
deriving DecidableEq, Repr

/-- `max(agent_scores.items(), key=lambda x: x[1])`: Python `max` returns
the first item attaining the maximum in iteration order. -/
def argmaxFirst : List (String × Nat) → Option (String × Nat)
  | [] => none
  | x :: xs => some (xs.foldl (fun b y => if y.2 > b.2 then y else b) x)

/-- `TopicAnalyzer.CONFIDENCE_THRESHOLD = 0.6` (line 114). -/
def confidenceThreshold : ℚ := 3 / 5

/-- `TopicAnalyzer.analyze_topic_preference`, decision part (lines
183-215): all-zero scores give no preference; otherwise the first
maximal-scoring agent is preferred iff its score share reaches the
confidence threshold. -/
def analyzeTopicPreference (scores : List (String × Nat)) : AnalysisResult :=
  if scores.all (fun p => p.2 = 0) then
    { preferredAgent := none, confidence := 0 }
  else
    match argmaxFirst scores with
    | none => { preferredAgent := none, confidence := 0 }
    | some (bestAgent, bestScore) =>
      let total : Nat := (scores.map (·.2)).sum
      let confidence : ℚ := if 0 < total then (bestScore : ℚ) / (total : ℚ) else 0
      { preferredAgent :=
          if confidenceThreshold ≤ confidence then some bestAgent else none
        confidence := confidence }

/-! ## Speaking-order scheduler

`AgentManager.determine_speaking_order` (lines 138-206).  `random.choice`
and `random.shuffle` are explicit parameters `choice` / `shuffle`; the
call `topic_analyzer.analyze_topic_preference(user_message)` (line 171) is
passed in as `analysis`. -/

/-- Python slice `l[:k]` for an `int` k: nonnegative k takes the first k
elements; negative k drops the last (-k) elements. -/
def pySliceTo {α : Type} (l : List α) (k : Int) : List α :=
  if 0 ≤ k then l.take k.toNat else l.take (l.length - (-k).toNat)

/-- `random.choice`: any function that picks an element of a nonempty list. -/
def ValidChoice (choice : List String → String) : Prop :=
  ∀ l : List String, l ≠ [] → choice l ∈ l

/-- `random.shuffle`: any permutation of the list. -/
def ValidShuffle (shuffle : List String → List String) : Prop :=
  ∀ l : List String, (shuffle l).Perm l

/-- A concrete valid choice function used by witnesses. -/
def headChoice (l : List String) : String := l.headD ""

theorem headChoice_valid : ValidChoice headChoice := by
  intro l h
  cases l with
  | nil => exact absurd rfl h
  | cons a t => simp [headChoice]

/-- The candidate pool (lines 151-159): the registered members of a
non-empty explicit selection, else all enabled agents. -/
def availableAgentIds (m : AgentManager) (selectedMentors : Option (List String)) :
    List String :=
  match selectedMentors with
  | some sel =>
    if sel ≠ [] then sel.filter (fun aid => dictContains aid m.agents)
    else enabledAgentIds m
  | none => enabledAgentIds m

/-- The first-speaker selection inside `determine_speaking_order` (lines
176-186): the analyzer's preferred agent when it is truthy, available and
confident enough, otherwise `random.choice(available_agent_ids)`. -/
def pickFirstSpeaker (available : List String) (analysis : AnalysisResult)
    (choice : List String → String) : String :=
  match analysis.preferredAgent with
  | some p =>
    if p ≠ "" ∧ p ∈ available ∧ confidenceThreshold ≤ analysis.confidence
    then p else choice available
  | none => choice available

/-- `AgentManager.determine_speaking_order` (lines 138-206).
`maxParticipants` is a Python int (may be ≤ 0). -/
def determineSpeakingOrder (m : AgentManager) (maxParticipants : Int)
    (selectedMentors : Option (List String)) (analysis : AnalysisResult)
    (choice : List String → String) (shuffle : List String → List String) :
    List String :=
  let available := availableAgentIds m selectedMentors
  if available = [] then []
  else
    -- max_participants = min(max_participants, len(available_agent_ids))
    let mp : Int := min maxParticipants (available.length : Int)
    let firstSpeaker := pickFirstSpeaker available analysis choice
    let remaining := available.filter (fun aid => aid ≠ firstSpeaker)
    let explicitSelection : Bool :=
      match selectedMentors with
      | some sel => !sel.isEmpty
      | none => false
    if explicitSelection then
      -- explicit selection: all selected mentors, shuffled, no cap (lines 192-197)
      firstSpeaker :: shuffle remaining
    else
      -- default: cap applies, `remaining_agents[:max_participants - 1]` (lines 198-203)
      if remaining = [] then [firstSpeaker]
      else firstSpeaker :: pySliceTo (shuffle remaining) (mp - 1)

/-! ## Round processing

`AgentManager.process_multi_agent_conversation` (lines 212-357) and
`AgentManager._generate_error_responses` (lines 421-443).  The external
generation backend (`agent.generate_response`, an awaited network call) is
modelled as an explicit oracle `gen : agent id → user message → GenOutcome`:
`ok s` for a normal return (possibly empty/whitespace), `failure` for a
raised exception. -/

inductive GenOutcome where
  | ok (text : String)
  | failure
deriving DecidableEq, Repr

/-- Python `str.strip()`: drop whitespace from both ends. -/
def pyStrip (s : String) : String :=
  String.mk
    (((s.data.dropWhile Char.isWhitespace).reverse.dropWhile
        Char.isWhitespace).reverse)

/-- Fallback for an empty/whitespace reply (line 311). -/
def fallbackEmptyReply : String := "抱歉，我暂时无法针对这个问题给出回复。"

/-- Fallback for a generation exception (line 316). -/
def fallbackErrorReply : String := "抱歉，我现在无法正常回复。请稍后再试。"

/-- Content of the fixed error responses (line 437). -/
def systemErrorReply : String := "抱歉，系统暂时出现故障，请稍后重试。"

structure AgentResponse where
  agentId : String
  agentName : String
  content : String
  voice : String
  order : Nat
deriving DecidableEq, Repr

/-- The per-turn loop of `process_multi_agent_conversation` (lines
282-341): enumerate the speaking order (so a skipped unregistered id still
consumes an order index), skip ids missing from the registry, substitute
the fixed fallback sentences on empty or failing generation, and keep
going — a failed turn never stops the loop. -/
def processTurnsFrom (gen : String → String → GenOutcome) (m : AgentManager)
    (userMessage : String) : Nat → List String → List AgentResponse
  | _, [] => []
  | orderIndex, agentId :: rest =>
    match dictGet agentId m.agents with
    | none => processTurnsFrom gen m userMessage (orderIndex + 1) rest
    | some agent =>
      let agentName :=
        match dictGet agentId m.agentConfigs with
        | some c => c.name
        | none => agentId
      let agentReply :=
        -- `if not agent_reply or not agent_reply.strip()` (line 310)
        match gen agentId userMessage with
        | .ok s => if pyStrip s = "" then fallbackEmptyReply else s
        | .failure => fallbackErrorReply
      { agentId := agentId
        agentName := agentName
        content := agentReply
        voice := agent.voice
        order := orderIndex + 1 } ::
        processTurnsFrom gen m userMessage (orderIndex + 1) rest

def processTurns (gen : String → String → GenOutcome) (m : AgentManager)
    (userMessage : String) (speakingOrder : List String) : List AgentResponse :=
  processTurnsFrom gen m userMessage 0 speakingOrder

/-- `AgentManager._generate_error_responses` (lines 421-443): the fixed
two-persona apology fallback (buffett and soros when registered, else the
first two registered agents). -/
def generateErrorResponses (m : AgentManager) : List AgentResponse :=
  let defaults := ["buffett", "soros"]
  let fromDefaults := defaults.filter (fun aid => dictContains aid m.agents)
  let availableAgents :=
    if fromDefaults = [] then (m.agents.map (·.1)).take 2 else fromDefaults
  (availableAgents.enum.map fun (index, aid) =>
    { agentId := aid
      agentName :=
        match dictGet aid m.agentConfigs with
        | some c => c.name
        | none => aid
      content := systemErrorReply
      voice :=
        match dictGet aid m.agents with
        | some a => a.voice
        | none => "Cherry"
      order := index + 1 })

/-- `AgentManager.process_multi_agent_conversation` (lines 212-357),
restricted to the speaking-order decision and the turn loop: an empty
speaking order yields `_generate_error_responses()` (lines 272-274),
otherwise the turns are processed in order. -/
def processMultiAgentConversation (gen : String → String → GenOutcome)
    (m : AgentManager) (userMessage : String) (maxParticipants : Int)
    (selectedMentors : Option (List String)) (analysis : AnalysisResult)
    (choice : List String → String) (shuffle : List String → List String) :
    List AgentResponse :=
  let speakingOrder :=
    determineSpeakingOrder m maxParticipants selectedMentors analysis choice shuffle
  if speakingOrder = [] then generateErrorResponses m
  else processTurns gen m userMessage speakingOrder

/-! ## Audio delivery pipeline

`RealtimeChatManager.process_multi_agent_chat` (realtime_chat.py, lines
292-324) and `_synthesize_and_send_multi_agent_audio` (lines 424-471).

Step 2 creates one `asyncio` task per turn; each task streams TTS chunks
and sends a `multi_agent_audio_chunk` event to the client the moment a
chunk is produced.  All tasks run concurrently; the step-3 loop merely
awaits their completion in order-index order — it does not gate the sends,
which happen inside the tasks.  The asyncio event loop may therefore
resume the suspended send/synthesis points of the tasks in any order that
respects each task's own program order.  We model a concurrent execution
by an explicit schedule: at each step the scheduler names a task, which
emits its next pending chunk event. -/

structure ChunkEvent where
  order : Nat
  chunkIndex : Nat
deriving DecidableEq, Repr

/-- The chunk events sent by `_synthesize_and_send_multi_agent_audio` for
the turn with the given order index, whose synthesis stream yields
`chunkCount` chunks (`chunk_count` starts at 1, lines 452-471). -/
def turnAudioEvents (order chunkCount : Nat) : List ChunkEvent :=
  (List.range chunkCount).map (fun i => ⟨order, i + 1⟩)

/-- The per-turn synthesis tasks launched in step 2 of
`process_multi_agent_chat`, for a round whose turns (order 1, 2, …)
produce the given chunk counts. -/
def synthesisTasks (chunkCounts : List Nat) : List (List ChunkEvent) :=
  chunkCounts.enum.map (fun (i, k) => turnAudioEvents (i + 1) k)

/-- Run the concurrent tasks under an explicit event-loop schedule: each
schedule entry names a task; if that task still has pending chunk events
the earliest one is sent to the client. -/
def runSchedule : List (List ChunkEvent) → List Nat → List ChunkEvent
  | _, [] => []
  | tasks, j :: rest =>
    match tasks.get? j with
    | some (e :: es) => e :: runSchedule (tasks.set j es) rest
    | _ => runSchedule tasks rest

/-- The client-observed ordering the spec demands: audio chunk events
totally ordered by (turn order index, chunk sequence). -/
def ChunkLE (a b : ChunkEvent) : Prop :=
  a.order < b.order ∨ (a.order = b.order ∧ a.chunkIndex ≤ b.chunkIndex)

instance : DecidableRel ChunkLE := fun a b => by
  unfold ChunkLE; infer_instance

def ClientOrdered (trace : List ChunkEvent) : Prop :=
  trace.Pairwise ChunkLE

instance : DecidablePred ClientOrdered := fun t => by
  unfold ClientOrdered; infer_instance

/-! ## Recognition idle timeout

`QwenASRRealtimeService.recognize_stream` (qwen_asr_realtime.py, lines
230-272).  The `async for audio_chunk in audio_stream` body runs once per
arriving audio frame.  Inside the body the code sets
`last_activity_time = time.time()` (line 255) and immediately afterwards
checks `time.time() - last_activity_time > 30` (line 262) to break on an
idle timeout; the two clock reads are adjacent (only a logging statement
between them), so both are modelled as the frame's arrival time.  With no
arriving frames, the surrounding `audio_stream` generator
(realtime_chat.py, lines 184-194) loops on 1-second queue timeouts and
yields nothing, so the loop body — and with it the idle check — never
runs. -/

/-- The frame loop of `recognize_stream`: `frameTimes` are the arrival
times (seconds) of the audio frames, `lastActivity` the running
`last_activity_time`; the result says whether the 30-second idle-timeout
`break` was ever taken. -/
def asrIdleBreak : List Nat → Nat → Bool
  | [], _ => false
  | t :: rest, _ =>
    -- recognition.send_audio_frame(...); chunk_count += 1
    -- last_activity_time = time.time()
    let lastActivity := t
    if 30 < t - lastActivity then true
    else asrIdleBreak rest lastActivity

/-! ## Ephemeral persona ids

`AgentManager.generate_dynamic_mentors` (agent_manager.py, lines 503-514)
builds `unique_agent_id = f"dynamic_{session_id}_{original_id}_{r1}"` with
`r1 = random.randint(1000, 9999)`, stores it as the mentor's `id`, and
`DynamicMentor.__init__` (dynamic_mentor.py, lines 24-35) then derives
`agent_id = f"dynamic_{base_id}_{r2}"` with `r2 = random.randint(10000,
99999)` from that base id.  The random draws are explicit parameters. -/

def mkUniqueAgentId (sessionId originalId : String) (r1 : Nat) : String :=
  "dynamic_" ++ sessionId ++ "_" ++ originalId ++ "_" ++ toString r1

def dynamicMentorAgentId (baseId : String) (r2 : Nat) : String :=
  "dynamic_" ++ baseId ++ "_" ++ toString r2

/-- The registered id of an ephemeral persona: the composition of the two
steps above. -/
def ephemeralPersonaId (sessionId originalId : String) (r1 r2 : Nat) : String :=
  dynamicMentorAgentId (mkUniqueAgentId sessionId originalId r1) r2

/-! ## Ephemeral persona cleanup

`AgentManager.cleanup_dynamic_mentors` (lines 566-586). -/

def cleanupDynamicMentors (m : AgentManager) (sessionId : String) : AgentManager :=
  match dictGet sessionId m.dynamicMentors with
  | none => m
  | some ownedIds =>
    { agents := ownedIds.foldl (fun d aid => dictDel aid d) m.agents
      agentConfigs := ownedIds.foldl (fun d aid => dictDel aid d) m.agentConfigs
      dynamicMentors := dictDel sessionId m.dynamicMentors
      sessionTopics := dictDel sessionId m.sessionTopics }

/-- The ephemeral persona ids owned by a session
(`self.dynamic_mentors[session_id]`, empty when absent). -/
def ownedMentorIds (m : AgentManager) (sessionId : String) : List String :=
  (dictGet sessionId m.dynamicMentors).getD []

/-! ## Concrete states and oracles used by the witnesses -/

/-- A manager state as produced by `generate_dynamic_mentors` for session
"s1": one registered ephemeral persona, recorded in `dynamic_mentors` and
`session_topics`. -/
def managerWithDynamicMentor : AgentManager :=
  let m := registerAgent initialAgentManager "dynamic_dynamic_s1_1_1234_12345"
    ⟨"Chelsie"⟩ ⟨"哲学思考者", "存在主义哲学家", 2, true, true, "人生的意义", "s1"⟩
  { m with
    dynamicMentors := dictSet "s1" ["dynamic_dynamic_s1_1_1234_12345"] m.dynamicMentors
    sessionTopics := dictSet "s1" "人生的意义" m.sessionTopics }

/-- A generation oracle where soros raises and munger returns whitespace. -/
def genWitness : String → String → GenOutcome := fun aid _ =>
  if aid = "soros" then GenOutcome.failure
  else if aid = "munger" then GenOutcome.ok "   "
  else GenOutcome.ok "投资需要耐心。"

/-- The turn produced for soros by `genWitness` in the witness round. -/
def sorosFailedTurn : AgentResponse :=
  { agentId := "soros"
    agentName := "乔治·索罗斯"
    content := fallbackErrorReply
    voice := "Chelsie"
    order := 2 }

/-- The turn produced for munger by `genWitness` in the witness round. -/
def mungerEmptyTurn : AgentResponse :=
  { agentId := "munger"
    agentName := "查理·芒格"
    content := fallbackEmptyReply
    voice := "Cherry"
    order := 4 }

/-! ## Helper lemmas on the dict model -/

theorem dictGet_cons {α : Type} (p : String × α) (t : List (String × α))
    (k : String) :
    dictGet k (p :: t) = if p.1 = k then some p.2 else dictGet k t := by
  by_cases h : p.1 = k
  · simp [dictGet, List.find?_cons_of_pos, h]
  · simp [dictGet, List.find?_cons_of_neg, h]

theorem dictDel_cons {α : Type} (p : String × α) (t : List (String × α))
    (k : String) :
    dictDel k (p :: t) = if p.1 = k then dictDel k t else p :: dictDel k t := by
  by_cases h : p.1 = k <;> simp [dictDel, List.filter_cons, h]

theorem dictGet_del_self {α : Type} (k : String) (d : List (String × α)) :
    dictGet k (dictDel k d) = none := by
  induction d with
  | nil => rfl
  | cons p t ih =>
    rw [dictDel_cons]
    by_cases h : p.1 = k
    · rw [if_pos h]; exact ih
    · rw [if_neg h, dictGet_cons, if_neg h]; exact ih

theorem dictGet_del_ne {α : Type} {k k' : String} (d : List (String × α))
    (h : k ≠ k') : dictGet k (dictDel k' d) = dictGet k d := by
  induction d with
  | nil => rfl
  | cons p t ih =>
    rw [dictDel_cons, dictGet_cons]
    by_cases hp : p.1 = k'
    · have hk : ¬ p.1 = k := by rw [hp]; exact fun hh => h hh.symm
      rw [if_pos hp, if_neg hk]; exact ih
    · rw [if_neg hp, dictGet_cons]
      by_cases hk : p.1 = k
      · rw [if_pos hk, if_pos hk]
      · rw [if_neg hk, if_neg hk]; exact ih

theorem dictGet_foldl_del {α : Type} (ids : List String) (k : String) :
    ∀ d : List (String × α),
      dictGet k (ids.foldl (fun d aid => dictDel aid d) d) =
        if k ∈ ids then none else dictGet k d := by
  induction ids with
  | nil => intro d; simp
  | cons i t ih =>
    intro d
    by_cases h : k = i
    · subst h
      simp only [List.foldl_cons, ih, List.mem_cons, true_or, if_true]
      by_cases ht : k ∈ t
      · simp [ht]
      · simp [ht, dictGet_del_self]
    · simp only [List.foldl_cons, ih, List.mem_cons]
      by_cases ht : k ∈ t
      · simp [ht]
      · simp [ht, h, dictGet_del_ne d h]

/-! ## Helper lemmas on the argmax and first-speaker selection -/

theorem argmaxFirst_foldl_mem (xs : List (String × Nat)) :
    ∀ b : String × Nat,
      xs.foldl (fun b y => if y.2 > b.2 then y else b) b = b ∨
        xs.foldl (fun b y => if y.2 > b.2 then y else b) b ∈ xs := by
  induction xs with
  | nil => intro b; exact Or.inl rfl
  | cons y t ih =>
    intro b
    simp only [List.foldl_cons]
    by_cases h : y.2 > b.2
    · rw [if_pos h]
      rcases ih y with h' | h'
      · right; rw [h']; exact List.mem_cons_self y t
      · right; exact List.mem_cons_of_mem y h'
    · rw [if_neg h]
      rcases ih b with h' | h'
      · left; exact h'
      · right; exact List.mem_cons_of_mem y h'

theorem argmaxFirst_mem {l : List (String × Nat)} {b : String × Nat}
    (h : argmaxFirst l = some b) : b ∈ l := by
  cases l with
  | nil => simp [argmaxFirst] at h
  | cons x xs =>
    simp only [argmaxFirst, Option.some.injEq] at h
    rcases argmaxFirst_foldl_mem xs x with h' | h'
    · rw [h] at h'; rw [h']; exact List.mem_cons_self x xs
    · rw [h] at h'; exact List.mem_cons_of_mem x h'

theorem argmaxFirst_foldl_le (xs : List (String × Nat)) :
    ∀ b : String × Nat,
      b.2 ≤ (xs.foldl (fun b y => if y.2 > b.2 then y else b) b).2 ∧
      ∀ y ∈ xs, y.2 ≤ (xs.foldl (fun b y => if y.2 > b.2 then y else b) b).2 := by
  induction xs with
  | nil => intro b; exact ⟨le_refl _, by simp⟩
  | cons y t ih =>
    intro b
    simp only [List.foldl_cons]
    by_cases h : y.2 > b.2
    · rw [if_pos h]
      refine ⟨le_of_lt (lt_of_lt_of_le h (ih y).1), ?_⟩
      intro z hz
      rcases List.mem_cons.mp hz with hz | hz
      · rw [hz]; exact (ih y).1
      · exact (ih y).2 z hz
    · rw [if_neg h]
      refine ⟨(ih b).1, ?_⟩
      intro z hz
      rcases List.mem_cons.mp hz with hz | hz
      · rw [hz]; exact le_trans (Nat.le_of_not_lt h) (ih b).1
      · exact (ih b).2 z hz

theorem argmaxFirst_is_max {l : List (String × Nat)} {b : String × Nat}
    (h : argmaxFirst l = some b) : ∀ y ∈ l, y.2 ≤ b.2 := by
  cases l with
  | nil => simp
  | cons x xs =>
    simp only [argmaxFirst, Option.some.injEq] at h
    intro y hy
    rcases List.mem_cons.mp hy with hy | hy
    · rw [hy, ← h]; exact (argmaxFirst_foldl_le xs x).1
    · rw [← h]; exact (argmaxFirst_foldl_le xs x).2 y hy

theorem pickFirstSpeaker_mem (available : List String)
    (analysis : AnalysisResult) (choice : List String → String)
    (hch : ValidChoice choice) (hne : available ≠ []) :
    pickFirstSpeaker available analysis choice ∈ available := by
  unfold pickFirstSpeaker
  cases analysis.preferredAgent with
  | none => exact hch available hne
  | some p =>
    dsimp only
    by_cases h : p ≠ "" ∧ p ∈ available ∧ confidenceThreshold ≤ analysis.confidence
    · rw [if_pos h]; exact h.2.1
    · rw [if_neg h]; exact hch available hne

theorem idShuffle_valid : ValidShuffle (fun l => l) := fun l => List.Perm.refl l

/-! ## Helper lemmas on underscore-delimited strings -/

theorem no_uscore_append_inj {l1 l2 r1 r2 : List Char}
    (h1 : '_' ∉ l1) (h2 : '_' ∉ l2)
    (h : l1 ++ '_' :: r1 = l2 ++ '_' :: r2) : l1 = l2 := by
  induction l1 generalizing l2 with
  | nil =>
    cases l2 with
    | nil => rfl
    | cons b t =>
      simp only [List.nil_append, List.cons_append, List.cons.injEq] at h
      rw [← h.1] at h2
      exact absurd (List.mem_cons_self '_' t) h2
  | cons a t ih =>
    cases l2 with
    | nil =>
      simp only [List.cons_append, List.nil_append, List.cons.injEq] at h
      rw [h.1] at h1
      exact absurd (List.mem_cons_self '_' t) h1
    | cons b t2 =>
      simp only [List.cons_append, List.cons.injEq] at h
      have ht1 : '_' ∉ t := fun hm => h1 (List.mem_cons_of_mem a hm)
      have ht2 : '_' ∉ t2 := fun hm => h2 (List.mem_cons_of_mem b hm)
      rw [h.1, ih ht1 ht2 h.2]

/-! # Claims

One theorem per claim of the frozen claim list, each stated over the
embedded definitions above. -/

/-- C1: the spec claims audio for turn order index n is never released to
the client before all audio of smaller order indices has been fully
released.  The code launches one synthesis task per turn and each task
sends its `multi_agent_audio_chunk` events the moment synthesis yields
them, concurrently with the other tasks; awaiting task completion in
order (step 3 of `process_multi_agent_chat`) does not gate those sends.
Under the concrete event-loop schedule [1,0,0] for a round of two turns
(2 and 1 chunks), the client observes turn 2's chunk before turn 1's
final chunk — the claimed ordering invariant is violated. -/
theorem multi_agent_audio_chunks_can_interleave :
    runSchedule (synthesisTasks [2, 1]) [1, 0, 0] =
      [⟨2, 1⟩, ⟨1, 1⟩, ⟨1, 2⟩] ∧
    ¬ ClientOrdered (runSchedule (synthesisTasks [2, 1]) [1, 0, 0]) :=
  ⟨rfl, by decide⟩

/-- C7: the spec claims 30 seconds without audio frames force the
recognition session to stop.  In `recognize_stream` the idle check
`time.time() - last_activity_time > 30` sits immediately after
`last_activity_time = time.time()` in the same loop iteration, and the
loop body only runs when a frame arrives; so the idle-timeout break can
never be taken — in particular a session with zero frames never stops and
emits no stop event. -/
theorem idle_timeout_never_stops_session :
    asrIdleBreak [] 0 = false ∧
    ∀ (frameTimes : List Nat) (lastActivity : Nat),
      asrIdleBreak frameTimes lastActivity = false := by
  refine ⟨rfl, ?_⟩
  intro frameTimes
  induction frameTimes with
  | nil => intro _; rfl
  | cons t rest ih =>
    intro lastActivity
    simp only [asrIdleBreak, Nat.sub_self]
    rw [if_neg (by omega)]
    exact ih t

/-- C8 counterexample: ids generated for two distinct sessions can
collide: session "a_1" with source id "2" and session "a" with source id
"1_2" produce the identical ephemeral persona id when the random suffixes
coincide, because the id is built by underscore concatenation. -/
theorem ephemeral_id_cross_session_collision :
    ("a_1" : String) ≠ "a" ∧
    ephemeralPersonaId "a_1" "2" 1000 10000 =
      ephemeralPersonaId "a" "1_2" 1000 10000 :=
  ⟨by decide, rfl⟩

/-- C8 amended: when the owning session ids contain no underscore, the id
embeds the session id between fixed underscore delimiters, so ids
generated for two distinct sessions never collide, whatever the source
ids and random suffixes are. -/
theorem ephemeral_id_disjoint_without_underscore
    (s1 s2 o1 o2 : String) (r1 r2 r1' r2' : Nat)
    (h1 : '_' ∉ s1.data) (h2 : '_' ∉ s2.data) (hne : s1 ≠ s2) :
    ephemeralPersonaId s1 o1 r1 r2 ≠ ephemeralPersonaId s2 o2 r1' r2' := by
  intro h
  apply hne
  have hd := congrArg String.data h
  simp only [ephemeralPersonaId, dynamicMentorAgentId, mkUniqueAgentId,
    String.data_append, List.append_assoc] at hd
  have hd1 := List.append_cancel_left (List.append_cancel_left hd)
  simp only [List.singleton_append] at hd1
  exact String.ext (no_uscore_append_inj h1 h2 hd1)

/-- C8 amended witness: two concrete underscore-free sessions get distinct
ids even with equal random suffixes. -/
theorem ephemeral_id_disjoint_without_underscore_witness :
    ephemeralPersonaId "sessionA" "1" 1000 10000 ≠
      ephemeralPersonaId "sessionB" "1" 1000 10000 :=
  ephemeral_id_disjoint_without_underscore "sessionA" "sessionB" "1" "1"
    1000 10000 1000 10000 (by decide) (by decide) (by decide)

/-- When a session owns no dynamic mentors, cleanup returns the state
unchanged (`cleanup_dynamic_mentors` lines 573-586: the body is guarded by
`if session_id in self.dynamic_mentors`). -/
theorem cleanup_not_owner {m : AgentManager} {s : String}
    (h : dictGet s m.dynamicMentors = none) :
    cleanupDynamicMentors m s = m := by
  unfold cleanupDynamicMentors
  rw [h]

/-- After cleanup, the session is no longer in `dynamic_mentors`. -/
theorem cleanup_clears_session (m : AgentManager) (s : String) :
    dictGet s (cleanupDynamicMentors m s).dynamicMentors = none := by
  unfold cleanupDynamicMentors
  cases h : dictGet s m.dynamicMentors with
  | none => exact h
  | some ids => exact dictGet_del_self s m.dynamicMentors

/-- C9: ephemeral-persona cleanup is idempotent and total: cleaning a
session twice equals cleaning it once, and cleaning a session that owns
no ephemeral personas leaves the manager unchanged (and, being a total
function, never raises). -/
theorem cleanup_idempotent_and_noop (m : AgentManager) (s : String) :
    cleanupDynamicMentors (cleanupDynamicMentors m s) s =
      cleanupDynamicMentors m s ∧
    (dictGet s m.dynamicMentors = none → cleanupDynamicMentors m s = m) :=
  ⟨cleanup_not_owner (cleanup_clears_session m s), fun h => cleanup_not_owner h⟩

/-- C9 witness: concrete double cleanup of session "s1" (which owns one
ephemeral persona) and cleanup of the unknown session "s2". -/
theorem cleanup_idempotent_and_noop_witness :
    cleanupDynamicMentors (cleanupDynamicMentors managerWithDynamicMentor "s1") "s1" =
      cleanupDynamicMentors managerWithDynamicMentor "s1" ∧
    cleanupDynamicMentors managerWithDynamicMentor "s2" = managerWithDynamicMentor :=
  ⟨(cleanup_idempotent_and_noop managerWithDynamicMentor "s1").1,
   (cleanup_idempotent_and_noop managerWithDynamicMentor "s2").2 (by decide)⟩

/-- C10: the frame condition of cleanup: exactly the ids recorded as owned
by the session are removed from the agent registry and its config map;
any other agent id keeps its registration and configuration unchanged,
and the `dynamic_mentors` entries of all other sessions are untouched. -/
theorem cleanup_frame_condition (m : AgentManager) (s : String) (aid : String) :
    (aid ∉ ownedMentorIds m s →
      dictGet aid (cleanupDynamicMentors m s).agents = dictGet aid m.agents ∧
      dictGet aid (cleanupDynamicMentors m s).agentConfigs =
        dictGet aid m.agentConfigs) ∧
    (aid ∈ ownedMentorIds m s →
      dictGet aid (cleanupDynamicMentors m s).agents = none ∧
      dictGet aid (cleanupDynamicMentors m s).agentConfigs = none) ∧
    (∀ s', s' ≠ s →
      dictGet s' (cleanupDynamicMentors m s).dynamicMentors =
        dictGet s' m.dynamicMentors) := by
  unfold cleanupDynamicMentors ownedMentorIds
  cases h : dictGet s m.dynamicMentors with
  | none =>
    refine ⟨fun _ => ⟨rfl, rfl⟩, ?_, fun s' _ => rfl⟩
    intro hmem
    simp [h] at hmem
  | some ids =>
    dsimp only
    refine ⟨?_, ?_, ?_⟩
    · intro hmem
      simp only [Option.getD_some] at hmem
      constructor
      · rw [dictGet_foldl_del ids aid m.agents, if_neg hmem]
      · rw [dictGet_foldl_del ids aid m.agentConfigs, if_neg hmem]
    · intro hmem
      simp only [Option.getD_some] at hmem
      constructor
      · rw [dictGet_foldl_del ids aid m.agents, if_pos hmem]
      · rw [dictGet_foldl_del ids aid m.agentConfigs, if_pos hmem]
    · intro s' hs'
      exact dictGet_del_ne m.dynamicMentors hs'

/-- C10 witness: cleaning session "s1" removes its ephemeral persona from
registry and config map, while the static persona buffett (and its
config) and the other sessions' ownership entries are untouched. -/
theorem cleanup_frame_condition_witness :
    (dictGet "buffett" (cleanupDynamicMentors managerWithDynamicMentor "s1").agents =
        dictGet "buffett" managerWithDynamicMentor.agents ∧
      dictGet "buffett" (cleanupDynamicMentors managerWithDynamicMentor "s1").agentConfigs =
        dictGet "buffett" managerWithDynamicMentor.agentConfigs) ∧
    (dictGet "dynamic_dynamic_s1_1_1234_12345"
        (cleanupDynamicMentors managerWithDynamicMentor "s1").agents = none ∧
      dictGet "dynamic_dynamic_s1_1_1234_12345"
        (cleanupDynamicMentors managerWithDynamicMentor "s1").agentConfigs = none) :=
  ⟨(cleanup_frame_condition managerWithDynamicMentor "s1" "buffett").1 (by decide),
   (cleanup_frame_condition managerWithDynamicMentor "s1"
      "dynamic_dynamic_s1_1_1234_12345").2.1 (by decide)⟩

/-- C2 counterexample: with the four static personas registered and an
explicit selection containing only an unregistered id, the candidate pool
is empty and `determine_speaking_order` returns [] — but the round is not
aborted with a SchedulingError: `process_multi_agent_conversation`
produces the fixed two-persona apology responses, so persona responses
are produced for the round, contradicting the claim. -/
theorem empty_pool_round_not_aborted :
    determineSpeakingOrder initialAgentManager 3 (some ["ghost"])
        (analyzeTopicPreference []) headChoice (fun l => l) = [] ∧
    (processMultiAgentConversation (fun _ _ => GenOutcome.ok "你好")
          initialAgentManager "大家好" 3 (some ["ghost"])
          (analyzeTopicPreference []) headChoice (fun l => l)).map
        (fun r => (r.agentId, r.content)) =
      [("buffett", systemErrorReply), ("soros", systemErrorReply)] :=
  ⟨rfl, rfl⟩

/-- C2 amended: when the candidate pool is empty,
`determine_speaking_order` returns the empty list and the round, instead
of being aborted with an explicit empty-candidate error, yields the fixed
two-persona apology responses of `_generate_error_responses`. -/
theorem empty_pool_returns_error_responses
    (gen : String → String → GenOutcome) (m : AgentManager) (msg : String)
    (cap : Int) (sel : Option (List String)) (analysis : AnalysisResult)
    (choice : List String → String) (shuffle : List String → List String)
    (h : availableAgentIds m sel = []) :
    determineSpeakingOrder m cap sel analysis choice shuffle = [] ∧
    processMultiAgentConversation gen m msg cap sel analysis choice shuffle =
      generateErrorResponses m := by
  have h1 : determineSpeakingOrder m cap sel analysis choice shuffle = [] := by
    unfold determineSpeakingOrder
    rw [if_pos h]
  refine ⟨h1, ?_⟩
  unfold processMultiAgentConversation
  rw [h1]
  rfl

/-- C2 amended witness: concrete empty candidate pool (selection of an
unregistered id over the initial registry). -/
theorem empty_pool_returns_error_responses_witness :
    determineSpeakingOrder initialAgentManager 3 (some ["ghost"])
        (analyzeTopicPreference []) headChoice (fun l => l) = [] ∧
    processMultiAgentConversation (fun _ _ => GenOutcome.ok "你好")
        initialAgentManager "大家好" 3 (some ["ghost"])
        (analyzeTopicPreference []) headChoice (fun l => l) =
      generateErrorResponses initialAgentManager :=
  empty_pool_returns_error_responses (fun _ _ => GenOutcome.ok "你好")
    initialAgentManager "大家好" 3 (some ["ghost"]) (analyzeTopicPreference [])
    headChoice (fun l => l) (by decide)

/-- Every registered agent in the speaking order yields exactly one turn,
whatever the generation outcomes are: the filterMap structure of the turn
loop never drops a registered agent. -/
theorem processTurnsFrom_map_agentId (gen : String → String → GenOutcome)
    (m : AgentManager) (msg : String) :
    ∀ (order : List String) (idx : Nat),
      (processTurnsFrom gen m msg idx order).map (·.agentId) =
        order.filter (fun aid => (dictGet aid m.agents).isSome) := by
  intro order
  induction order with
  | nil => intro idx; rfl
  | cons aid rest ih =>
    intro idx
    rw [List.filter_cons]
    cases h : dictGet aid m.agents with
    | none => simp [processTurnsFrom, h, ih]
    | some a => simp [processTurnsFrom, h, ih]

/-- Every turn whose generation fails carries the exception fallback, and
every turn whose generation returns blank text carries the empty-reply
fallback. -/
theorem processTurnsFrom_fallback (gen : String → String → GenOutcome)
    (m : AgentManager) (msg : String) :
    ∀ (order : List String) (idx : Nat) (r : AgentResponse),
      r ∈ processTurnsFrom gen m msg idx order →
      (gen r.agentId msg = GenOutcome.failure → r.content = fallbackErrorReply) ∧
      (∀ s, gen r.agentId msg = GenOutcome.ok s → pyStrip s = "" →
        r.content = fallbackEmptyReply) := by
  intro order
  induction order with
  | nil => intro idx r hr; simp [processTurnsFrom] at hr
  | cons aid rest ih =>
    intro idx r hr
    rw [processTurnsFrom] at hr
    cases h : dictGet aid m.agents with
    | none =>
      rw [h] at hr
      exact ih (idx + 1) r hr
    | some a =>
      rw [h] at hr
      rcases List.mem_cons.mp hr with hr | hr
      · subst hr
        dsimp only
        constructor
        · intro hfail
          rw [hfail]
        · intro s hok htrim
          rw [hok]
          dsimp only
          rw [if_pos htrim]
      · exact ih (idx + 1) r hr

/-- C6: for every turn whose generation call returns blank text or raises,
the turn's text is the corresponding fixed deterministic fallback
sentence and the round continues: every registered agent of the speaking
order — including all subsequent ones — still yields its turn. -/
theorem generation_failure_fallback_round_continues
    (gen : String → String → GenOutcome) (m : AgentManager) (msg : String)
    (order : List String) :
    ((processTurns gen m msg order).map (·.agentId) =
      order.filter (fun aid => (dictGet aid m.agents).isSome)) ∧
    (∀ r ∈ processTurns gen m msg order,
      (gen r.agentId msg = GenOutcome.failure → r.content = fallbackErrorReply) ∧
      (∀ s, gen r.agentId msg = GenOutcome.ok s → pyStrip s = "" →
        r.content = fallbackEmptyReply)) :=
  ⟨processTurnsFrom_map_agentId gen m msg order 0,
   fun r hr => processTurnsFrom_fallback gen m msg order 0 r hr⟩

/-- C6 witness: in a concrete round where soros raises and munger returns
whitespace, the failed turns carry the fixed fallback sentences, the
unregistered id "ghost" is skipped, and the remaining turns all happen. -/
theorem generation_failure_fallback_round_continues_witness :
    ((processTurns genWitness initialAgentManager "聊聊投资"
        ["buffett", "soros", "ghost", "munger"]).map (·.agentId) =
      ["buffett", "soros", "munger"]) ∧
    sorosFailedTurn ∈ processTurns genWitness initialAgentManager "聊聊投资"
      ["buffett", "soros", "ghost", "munger"] ∧
    sorosFailedTurn.content = fallbackErrorReply ∧
    mungerEmptyTurn ∈ processTurns genWitness initialAgentManager "聊聊投资"
      ["buffett", "soros", "ghost", "munger"] ∧
    mungerEmptyTurn.content = fallbackEmptyReply := by
  have h := generation_failure_fallback_round_continues genWitness
    initialAgentManager "聊聊投资" ["buffett", "soros", "ghost", "munger"]
  refine ⟨by rw [h.1]; rfl, by decide, ?_, by decide, ?_⟩
  · exact (h.2 sorosFailedTurn (by decide)).1 (by decide)
  · exact (h.2 mungerEmptyTurn (by decide)).2 "   " (by decide) (by decide)

/-- A Python slice `l[:k]` is always a sublist of `l`. -/
theorem pySliceTo_sublist {α : Type} (l : List α) (k : Int) :
    (pySliceTo l k).Sublist l := by
  unfold pySliceTo
  split
  · exact List.take_sublist _ _
  · exact List.take_sublist _ _

/-- Moving a member of a duplicate-free list to the front and filtering it
out of the tail is a permutation of the list. -/
theorem cons_filter_ne_perm {a : String} {l : List String}
    (hnd : l.Nodup) (ha : a ∈ l) :
    (a :: l.filter (fun x => x ≠ a)).Perm l := by
  induction l with
  | nil => cases ha
  | cons b t ih =>
    have hbt : b ∉ t := (List.nodup_cons.mp hnd).1
    rcases List.mem_cons.mp ha with h | h
    · subst h
      rw [List.filter_cons, if_neg (by simp)]
      have hfe : t.filter (fun x => x ≠ a) = t :=
        List.filter_eq_self.mpr (fun x hx => by
          simp only [ne_eq, decide_eq_true_eq]
          exact fun hxa => hbt (hxa ▸ hx))
      rw [hfe]
    · have hab : b ≠ a := fun hba => hbt (hba ▸ h)
      rw [List.filter_cons, if_pos (by simpa using hab)]
      exact (List.Perm.swap b a (t.filter (fun x => x ≠ a))).trans
        (List.Perm.cons b (ih (List.nodup_cons.mp hnd).2 h))

/-- Structure of a nonempty scheduling result: the chosen first speaker
followed by a sublist of the shuffled remaining candidates. -/
theorem dso_cons_structure (m : AgentManager) (cap : Int)
    (sel : Option (List String)) (analysis : AnalysisResult)
    (choice : List String → String) (shuffle : List String → List String)
    (h : availableAgentIds m sel ≠ []) :
    ∃ rest,
      determineSpeakingOrder m cap sel analysis choice shuffle =
        pickFirstSpeaker (availableAgentIds m sel) analysis choice :: rest ∧
      rest.Sublist (shuffle ((availableAgentIds m sel).filter
        (fun aid => aid ≠ pickFirstSpeaker (availableAgentIds m sel) analysis choice))) := by
  simp only [determineSpeakingOrder]
  rw [if_neg h]
  split
  · exact ⟨_, rfl, List.Sublist.refl _⟩
  · split
    · next hrem =>
      refine ⟨[], rfl, ?_⟩
      rw [hrem]
      exact List.nil_sublist _
    · exact ⟨_, rfl, pySliceTo_sublist _ _⟩

/-- C5: when an explicit persona selection is supplied, the participant
cap is ignored and every selected and registered persona participates:
the returned order is exactly a permutation of the registered members of
the selection, for every cap value. -/
theorem explicit_selection_ignores_cap (m : AgentManager) (cap : Int)
    (sel : List String) (analysis : AnalysisResult)
    (choice : List String → String) (shuffle : List String → List String)
    (hsel : sel ≠ []) (hnd : sel.Nodup)
    (hch : ValidChoice choice) (hsh : ValidShuffle shuffle) :
    (determineSpeakingOrder m cap (some sel) analysis choice shuffle).Perm
      (sel.filter (fun aid => dictContains aid m.agents)) := by
  have havail : availableAgentIds m (some sel) =
      sel.filter (fun aid => dictContains aid m.agents) := by
    simp [availableAgentIds, hsel]
  rw [← havail]
  by_cases h : availableAgentIds m (some sel) = []
  · have hz : determineSpeakingOrder m cap (some sel) analysis choice shuffle = [] := by
      simp only [determineSpeakingOrder]
      rw [if_pos h]
    rw [hz, h]
  · simp only [determineSpeakingOrder]
    rw [if_neg h]
    split
    · have hnd' : (availableAgentIds m (some sel)).Nodup := by
        rw [havail]; exact hnd.filter _
      have hfirst := pickFirstSpeaker_mem (availableAgentIds m (some sel))
        analysis choice hch h
      exact (List.Perm.cons _ (hsh _)).trans (cons_filter_ne_perm hnd' hfirst)
    · next hexp => exact absurd (by simpa using hexp) hsel

/-- C5 witness: explicitly selecting 2 of the 4 registered personas with
cap 3 yields exactly those 2 personas. -/
theorem explicit_selection_ignores_cap_witness :
    (determineSpeakingOrder initialAgentManager 3 (some ["soros", "krugman"])
        (analyzeTopicPreference []) headChoice (fun l => l)).Perm
      (["soros", "krugman"].filter
        (fun aid => dictContains aid initialAgentManager.agents)) :=
  explicit_selection_ignores_cap initialAgentManager 3 ["soros", "krugman"]
    (analyzeTopicPreference []) headChoice (fun l => l) (by decide) (by decide)
    headChoice_valid idShuffle_valid

/-- C3 counterexample: with cap 0, no explicit selection, and the four
enabled static personas, the returned order has length 3 — the Python
slice `remaining_agents[:max_participants - 1]` becomes `[:-1]` and keeps
all but one remaining agent, so the "length at most the cap" part of the
claim fails for cap ≤ 0. -/
theorem speaking_order_cap_zero_exceeded :
    ValidChoice headChoice ∧ ValidShuffle (fun l => l) ∧
    (determineSpeakingOrder initialAgentManager 0 none
        (analyzeTopicPreference []) headChoice (fun l => l)).length = 3 ∧
    ¬ (((determineSpeakingOrder initialAgentManager 0 none
        (analyzeTopicPreference []) headChoice (fun l => l)).length : Int) ≤ 0) :=
  ⟨headChoice_valid, idShuffle_valid, rfl, by decide⟩

/-- C3 amended: for a duplicate-free candidate pool the scheduler returns
a permutation of a subset of the pool (expressed as `Subperm`); the empty
pool yields the empty list; and when no explicit selection is supplied
and the cap is at least 1, the length is bounded by the cap (for cap ≤ 0
the bound fails, see the counterexample). -/
theorem determine_speaking_order_subset_cap
    (m : AgentManager) (cap : Int) (sel : Option (List String))
    (analysis : AnalysisResult) (choice : List String → String)
    (shuffle : List String → List String)
    (hch : ValidChoice choice) (hsh : ValidShuffle shuffle)
    (hnd : (availableAgentIds m sel).Nodup) :
    (availableAgentIds m sel = [] →
      determineSpeakingOrder m cap sel analysis choice shuffle = []) ∧
    (determineSpeakingOrder m cap sel analysis choice shuffle).Subperm
      (availableAgentIds m sel) ∧
    ((sel = none ∨ sel = some []) → 1 ≤ cap →
      ((determineSpeakingOrder m cap sel analysis choice shuffle).length : Int) ≤ cap) := by
  have hp1 : availableAgentIds m sel = [] →
      determineSpeakingOrder m cap sel analysis choice shuffle = [] := by
    intro h
    simp only [determineSpeakingOrder]
    rw [if_pos h]
  refine ⟨hp1, ?_, ?_⟩
  · by_cases h : availableAgentIds m sel = []
    · rw [hp1 h]
      exact List.nil_subperm
    · obtain ⟨rest, heq, hsub⟩ :=
        dso_cons_structure m cap sel analysis choice shuffle h
      rw [heq]
      have hfmem : pickFirstSpeaker (availableAgentIds m sel) analysis choice ∈
          availableAgentIds m sel :=
        pickFirstSpeaker_mem (availableAgentIds m sel) analysis choice hch h
      have hremnd : ((availableAgentIds m sel).filter
          (fun aid => aid ≠ pickFirstSpeaker (availableAgentIds m sel) analysis choice)).Nodup :=
        hnd.filter _
      have hshnd : (shuffle ((availableAgentIds m sel).filter
          (fun aid => aid ≠ pickFirstSpeaker (availableAgentIds m sel) analysis choice))).Nodup :=
        ((hsh _).nodup_iff).mpr hremnd
      have hrestnd : rest.Nodup := hshnd.sublist hsub
      have hrestne : ∀ x ∈ rest,
          x ≠ pickFirstSpeaker (availableAgentIds m sel) analysis choice := by
        intro x hx
        have hx2 : x ∈ (availableAgentIds m sel).filter
            (fun aid => aid ≠ pickFirstSpeaker (availableAgentIds m sel) analysis choice) :=
          ((hsh _).mem_iff).mp (hsub.subset hx)
        have := List.of_mem_filter hx2
        simpa using this
      have hcons : (pickFirstSpeaker (availableAgentIds m sel) analysis choice :: rest).Nodup :=
        List.nodup_cons.mpr ⟨fun hmem => (hrestne _ hmem) rfl, hrestnd⟩
      refine hcons.subperm ?_
      intro x hx
      rcases List.mem_cons.mp hx with hx | hx
      · rw [hx]; exact hfmem
      · have hx2 : x ∈ (availableAgentIds m sel).filter
            (fun aid => aid ≠ pickFirstSpeaker (availableAgentIds m sel) analysis choice) :=
          ((hsh _).mem_iff).mp (hsub.subset hx)
        exact List.mem_of_mem_filter hx2
  · intro hnosel hcap
    by_cases h : availableAgentIds m sel = []
    · rw [hp1 h]
      simp
      omega
    · have hA : 0 < (availableAgentIds m sel).length := List.length_pos.mpr h
      simp only [determineSpeakingOrder]
      rw [if_neg h]
      split
      · next hc =>
        rcases hnosel with rfl | rfl
        · exact absurd hc (by decide)
        · exact absurd hc (by decide)
      · split
        · simpa using hcap
        · have hk : (0 : Int) ≤ min cap ((availableAgentIds m sel).length : Int) - 1 := by
            omega
          have hlen : (pySliceTo (shuffle ((availableAgentIds m sel).filter
              (fun aid => aid ≠ pickFirstSpeaker (availableAgentIds m sel) analysis choice)))
                (min cap ((availableAgentIds m sel).length : Int) - 1)).length ≤
              (min cap ((availableAgentIds m sel).length : Int) - 1).toNat := by
            unfold pySliceTo
            rw [if_pos hk]
            simp [List.length_take]
          simp only [List.length_cons]
          push_cast
          omega

/-- C3 amended witness: cap 2, no selection, four enabled personas. -/
theorem determine_speaking_order_subset_cap_witness :
    (determineSpeakingOrder initialAgentManager 2 none (analyzeTopicPreference [])
        headChoice (fun l => l)).Subperm (availableAgentIds initialAgentManager none) ∧
    ((determineSpeakingOrder initialAgentManager 2 none (analyzeTopicPreference [])
        headChoice (fun l => l)).length : Int) ≤ 2 :=
  have h := determine_speaking_order_subset_cap initialAgentManager 2 none
    (analyzeTopicPreference []) headChoice (fun l => l) headChoice_valid
    idShuffle_valid (by decide)
  ⟨h.2.1, h.2.2 (Or.inl rfl) (by decide)⟩

/-- When one entry strictly dominates all entries with other keys and the
keys are duplicate-free, `argmaxFirst` returns exactly that entry. -/
theorem argmaxFirst_unique_max {scores : List (String × Nat)} {p : String}
    {sp : Nat} (hkeys : (scores.map (·.1)).Nodup) (hmem : (p, sp) ∈ scores)
    (hlt : ∀ y ∈ scores, y.1 ≠ p → y.2 < sp) :
    argmaxFirst scores = some (p, sp) := by
  cases hb : argmaxFirst scores with
  | none =>
    cases scores with
    | nil => cases hmem
    | cons x xs => simp [argmaxFirst] at hb
  | some b =>
    have hbmem := argmaxFirst_mem hb
    have hmax := argmaxFirst_is_max hb (p, sp) hmem
    have hb1 : b.1 = p := by
      by_contra hne
      exact absurd (lt_of_lt_of_le (hlt b hbmem hne) hmax) (lt_irrefl _)
    have hbp : b = (p, sp) := List.inj_on_of_nodup_map hkeys hbmem hmem hb1
    rw [hbp]

/-- Two distinct entries of a list jointly bound its value sum below. -/
theorem two_entries_le_sum {l : List (String × Nat)} {a b : String × Nat}
    (ha : a ∈ l) (hb : b ∈ l) (hab : a ≠ b) :
    a.2 + b.2 ≤ (l.map (·.2)).sum := by
  induction l with
  | nil => cases ha
  | cons x t ih =>
    simp only [List.map_cons, List.sum_cons]
    rcases List.mem_cons.mp ha with hax | hat
    · have hbt : b ∈ t := by
        rcases List.mem_cons.mp hb with hbx | hbt
        · exact absurd (hax.trans hbx.symm) hab
        · exact hbt
      have := List.single_le_sum (fun z _ => Nat.zero_le z) b.2
        (List.mem_map_of_mem (·.2) hbt)
      subst hax
      omega
    · rcases List.mem_cons.mp hb with hbx | hbt
      · have := List.single_le_sum (fun z _ => Nat.zero_le z) a.2
          (List.mem_map_of_mem (·.2) hat)
        subst hbx
        omega
      · have := ih hat hbt
        omega

/-- A score share of at least the 0.6 confidence threshold forces the
holder to strictly dominate every other entry: two entries of value ≥ 0.6
of the total cannot coexist. -/
theorem score_dominance {scores : List (String × Nat)} {p : String} {sp : Nat}
    (hmem : (p, sp) ∈ scores) (htot : 0 < (scores.map (·.2)).sum)
    (hshare : confidenceThreshold * (((scores.map (·.2)).sum : Nat) : ℚ) ≤ (sp : ℚ)) :
    ∀ y ∈ scores, y.1 ≠ p → y.2 < sp := by
  intro y hy hyne
  by_contra hge
  push_neg at hge
  have hyne' : (p, sp) ≠ y := fun h => hyne (by rw [← h])
  have hpair : sp + y.2 ≤ (scores.map (·.2)).sum :=
    two_entries_le_sum hmem hy hyne'
  have h2 : 2 * sp ≤ (scores.map (·.2)).sum := by omega
  have h2q : (2 * sp : ℚ) ≤ (((scores.map (·.2)).sum : Nat) : ℚ) := by
    exact_mod_cast h2
  have htq : (0 : ℚ) < (((scores.map (·.2)).sum : Nat) : ℚ) := by
    exact_mod_cast htot
  have hth : confidenceThreshold = 3 / 5 := rfl
  rw [hth] at hshare
  linarith

/-- With a duplicate-free score map, a positive total and a share at least
the threshold, the topic analyzer recommends exactly the dominating agent
with a confidence at least the threshold. -/
theorem analyze_high_confidence {scores : List (String × Nat)} {p : String}
    {sp : Nat} (hkeys : (scores.map (·.1)).Nodup) (hmem : (p, sp) ∈ scores)
    (htot : 0 < (scores.map (·.2)).sum)
    (hshare : confidenceThreshold * (((scores.map (·.2)).sum : Nat) : ℚ) ≤ (sp : ℚ)) :
    (analyzeTopicPreference scores).preferredAgent = some p ∧
    confidenceThreshold ≤ (analyzeTopicPreference scores).confidence := by
  have hlt := score_dominance hmem htot hshare
  have hargmax := argmaxFirst_unique_max hkeys hmem hlt
  have htq : (0 : ℚ) < (((scores.map (·.2)).sum : Nat) : ℚ) := by
    exact_mod_cast htot
  have hsp : sp ≠ 0 := by
    intro h0
    rw [h0] at hshare
    rw [show confidenceThreshold = 3 / 5 from rfl] at hshare
    simp only [Nat.cast_zero] at hshare
    linarith
  have hall : scores.all (fun q => q.2 = 0) = false := by
    cases hall : scores.all (fun q => q.2 = 0) with
    | false => rfl
    | true =>
      have := List.all_eq_true.mp hall (p, sp) hmem
      simp at this
      exact absurd this hsp
  have hconf : confidenceThreshold ≤
      (sp : ℚ) / (((scores.map (·.2)).sum : Nat) : ℚ) :=
    (le_div_iff₀ htq).mpr hshare
  unfold analyzeTopicPreference
  rw [if_neg (by simp [hall]), hargmax]
  dsimp only
  rw [if_pos htot, if_pos hconf]
  exact ⟨rfl, hconf⟩

/-- C4: for a fixed utterance (represented by its deterministic per-agent
keyword scores) whose best-scoring agent is a candidate, is non-blank and
holds a score share of at least the 0.6 confidence threshold, the lead
speaker chosen by `determine_speaking_order` is that agent — for every
`random.choice` and `random.shuffle` outcome, hence deterministic across
runs. -/
theorem lead_speaker_deterministic_high_confidence
    (m : AgentManager) (cap : Int) (sel : Option (List String))
    (scores : List (String × Nat)) (p : String) (sp : Nat)
    (choice : List String → String) (shuffle : List String → List String)
    (hkeys : (scores.map (·.1)).Nodup) (hmem : (p, sp) ∈ scores)
    (hp : p ∈ availableAgentIds m sel) (hpne : p ≠ "")
    (htot : 0 < (scores.map (·.2)).sum)
    (hshare : confidenceThreshold * (((scores.map (·.2)).sum : Nat) : ℚ) ≤ (sp : ℚ)) :
    (determineSpeakingOrder m cap sel (analyzeTopicPreference scores)
      choice shuffle).head? = some p := by
  have hpa := analyze_high_confidence hkeys hmem htot hshare
  have hne : availableAgentIds m sel ≠ [] := List.ne_nil_of_mem hp
  obtain ⟨rest, heq, _⟩ := dso_cons_structure m cap sel
    (analyzeTopicPreference scores) choice shuffle hne
  rw [heq, List.head?_cons]
  unfold pickFirstSpeaker
  rw [hpa.1]
  dsimp only
  rw [if_pos ⟨hpne, hp, hpa.2⟩]

/-- C4 witness: scores buffett 3, soros 1, munger 0 (share 3/4 ≥ 0.6);
two different randomization outcomes both pick buffett as the lead. -/
theorem lead_speaker_deterministic_high_confidence_witness :
    (determineSpeakingOrder initialAgentManager 3 none
        (analyzeTopicPreference [("buffett", 3), ("soros", 1), ("munger", 0)])
        headChoice (fun l => l)).head? = some "buffett" ∧
    (determineSpeakingOrder initialAgentManager 3 none
        (analyzeTopicPreference [("buffett", 3), ("soros", 1), ("munger", 0)])
        (fun l => l.getLastD "") List.reverse).head? = some "buffett" := by
  have hshare : confidenceThreshold *
      ((((([("buffett", 3), ("soros", 1), ("munger", 0)] : List (String × Nat)).map
        (·.2)).sum : Nat)) : ℚ) ≤ ((3 : Nat) : ℚ) := by
    norm_num [confidenceThreshold]
  exact ⟨lead_speaker_deterministic_high_confidence initialAgentManager 3 none
      [("buffett", 3), ("soros", 1), ("munger", 0)] "buffett" 3 headChoice
      (fun l => l) (by decide) (by decide) (by decide) (by decide) (by decide)
      hshare,
    lead_speaker_deterministic_high_confidence initialAgentManager 3 none
      [("buffett", 3), ("soros", 1), ("munger", 0)] "buffett" 3
      (fun l => l.getLastD "") List.reverse (by decide) (by decide) (by decide)
      (by decide) (by decide) hshare⟩

end InstantAgent
